import Mathlib

/-!
Verification of the time-series distributions module
(`pymc3/distributions/timeseries.py`).

Sequences are shallowly embedded as `List ℝ`; python slices become list
operations (`x[:-1]` is `List.dropLast`, `x[1:]` is `List.tail`,
`x[p:]` is `List.drop p`); the symbolic `scan` of the GARCH volatility
recurrence becomes a structural left-to-right recursion; elementwise
tensor arithmetic becomes `List.zipWith` / `List.map`.
-/

/-- Modelled from the spec: the `Normal` log-density primitive lives in
`continuous.py`, outside this module.  Log of the normal pdf with mean
`mu` and precision `tau`: `log (tau / (2*pi)) / 2 - tau * (x - mu)^2 / 2`. -/
noncomputable def Normal.logp_tau (mu tau x : ℝ) : ℝ :=
  (Real.log (tau / (2 * Real.pi)) - tau * (x - mu) ^ 2) / 2

/-- Modelled from the spec: the `Normal` primitive in its standard-deviation
parameterization; internally canonicalized to precision `tau = 1/sigma^2`. -/
noncomputable def Normal.logp_sigma (mu sigma x : ℝ) : ℝ :=
  Normal.logp_tau mu ((sigma ^ 2)⁻¹) x

/-- Modelled from the spec: `Flat`, the improper flat prior used as default
`init` distribution, has constant-zero log-density. -/
def Flat.logp : ℝ → ℝ := fun _ => 0

/-- Modelled from the spec: `get_tau_sigma` lives in `continuous.py`, outside
this module.  Resolves the precision/std-dev duality to a canonical pair
`(tau, sigma)` with `tau = 1/sigma^2`; fails (returns `none`) unless exactly
one of the two inputs is provided. -/
noncomputable def get_tau_sigma : Option ℝ → Option ℝ → Option (ℝ × ℝ)
  | some t, none => some (t, Real.sqrt t⁻¹)
  | none, some s => some ((s ^ 2)⁻¹, s)
  | some _, some _ => none
  | none, none => none

/-- `AR1.logp`: scores `x[0]` under `Normal(0, tau=tau_e)` and each pair
`(x[i-1], x[i])` (that is, `zip x[:-1] x[1:]`) under
`Normal(k*x[i-1], tau=tau_e)`, summed. -/
noncomputable def AR1.logp (k tau_e : ℝ) (x : List ℝ) : ℝ :=
  Normal.logp_tau 0 tau_e x.headI
    + ((x.dropLast.zip x.tail).map
        (fun p => Normal.logp_tau (k * p.1) tau_e p.2)).sum

/-- Elementwise difference of two sequences. -/
def vsub : List ℝ → List ℝ → List ℝ := List.zipWith (fun a b => a - b)

/-- `tt.add(*args)`: elementwise sum of a nonempty list of sequences. -/
def vaddl : List (List ℝ) → List ℝ
  | [] => []
  | h :: t => t.foldl (List.zipWith (fun a b => a + b)) h

/-- The python slice `l[a:-b]` (for `b ≥ 1`). -/
def pyslice (a b : ℕ) (l : List ℝ) : List ℝ :=
  (l.drop a).take (l.length - b - a)

/-- The effective lag order `p` of the AR process: `len(rho)`, minus one when
a constant (intercept) term is included. -/
def AR.lag (rho : List ℝ) (constant : Bool) : ℕ :=
  if constant then rho.length - 1 else rho.length

/-- The innovation residuals `eps` computed inside `AR.logp`:
`value[p:] - rho[0] - sum_i rho[i+1]*value[p-(i+1):-(i+1)]` with a constant
term, and `value[p:] - sum_i rho[i]*value[p-(i+1):-(i+1)]` without (the
`p = 1` case multiplying the single coefficient through `value[:-1]`). -/
noncomputable def AR.eps (rho : List ℝ) (constant : Bool) (value : List ℝ) :
    List ℝ :=
  if constant then
    let p := rho.length - 1
    let x := vaddl ((List.range p).map (fun i =>
      (pyslice (p - (i + 1)) (i + 1) value).map
        (fun v => rho.getD (i + 1) 0 * v)))
    vsub ((value.drop p).map (fun v => v - rho.getD 0 0)) x
  else
    let p := rho.length
    if p = 1 then
      vsub (value.drop 1) (value.dropLast.map (fun v => rho.headI * v))
    else
      vsub (value.drop p) (vaddl ((List.range p).map (fun i =>
        (pyslice (p - (i + 1)) (i + 1) value).map
          (fun v => rho.getD i 0 * v))))

/-- The parameter bundle stored by `AR.__init__`: coefficients, the canonical
scale pair produced by `get_tau_sigma`, and the constant-term flag. -/
structure ARdist where
  rho : List ℝ
  sigma : ℝ
  tau : ℝ
  constant : Bool

/-- `AR.__init__`: resolves the precision/std-dev duality through
`get_tau_sigma` (argument order `tau`, `sigma`, as in the source), failing
when that resolution fails. -/
noncomputable def AR.make (rho : List ℝ) (sigma tau : Option ℝ)
    (constant : Bool) : Option ARdist :=
  (get_tau_sigma tau sigma).map (fun ts => ⟨rho, ts.2, ts.1, constant⟩)

/-- `AR.logp`: the innovation residuals are scored under `Normal(0, tau)`
and the first `p` values under the `init` sub-distribution, both summed. -/
noncomputable def ARdist.logp (d : ARdist) (initLogp : ℝ → ℝ)
    (value : List ℝ) : ℝ :=
  ((AR.eps d.rho d.constant value).map
      (fun e => Normal.logp_tau 0 d.tau e)).sum
    + ((value.take (AR.lag d.rho d.constant)).map initLogp).sum

/-- `GaussianRandomWalk.logp` on a sequence (the `ndim > 0` branch, with
scalar `mu` and `sigma`): scores each `x[i]` under
`Normal(x[i-1] + mu, sigma)` and adds `init.logp(x[0])`. -/
noncomputable def GaussianRandomWalk.logp (initLogp : ℝ → ℝ) (mu sigma : ℝ)
    (x : List ℝ) : ℝ :=
  initLogp x.headI
    + ((x.dropLast.zip x.tail).map
        (fun p => Normal.logp_sigma (p.1 + mu) sigma p.2)).sum

/-- The parameter bundle stored by `GaussianRandomWalk.__init__`. -/
structure GRWdist where
  tau : ℝ
  sigma : ℝ
  mu : ℝ

/-- `GaussianRandomWalk.__init__`: raises (returns `none`) when the shape
sums to zero (`sum(self.shape) == 0`), then resolves the precision/std-dev
duality through `get_tau_sigma`. -/
noncomputable def GaussianRandomWalk.make (tau sigma : Option ℝ) (mu : ℝ)
    (shape : List ℕ) : Option GRWdist :=
  if shape.sum = 0 then none
  else (get_tau_sigma tau sigma).map (fun ts => ⟨ts.1, ts.2, mu⟩)

/-- `logp` of a constructed `GaussianRandomWalk` parameter bundle. -/
noncomputable def GRWdist.logp (d : GRWdist) (initLogp : ℝ → ℝ)
    (x : List ℝ) : ℝ :=
  GaussianRandomWalk.logp initLogp d.mu d.sigma x

/-- The `volatility_update` step function of the GARCH(1,1) recurrence:
`sqrt(w + a*x^2 + b*vol^2)`. -/
noncomputable def volatility_update (x vol w a b : ℝ) : ℝ :=
  Real.sqrt (w + a * x ^ 2 + b * vol ^ 2)

/-- The symbolic `scan` of `GARCH11.get_volatility`: a strict left-to-right
fold threading the volatility accumulator, emitting each updated value. -/
noncomputable def GARCH11.scan (w a b : ℝ) : ℝ → List ℝ → List ℝ
  | _, [] => []
  | vol, xt :: rest =>
      volatility_update xt vol w a b ::
        GARCH11.scan w a b (volatility_update xt vol w a b) rest

/-- `GARCH11.get_volatility`: drops the last observation (`x = x[:-1]`),
scans the volatility recurrence seeded with `initial_vol`, and prepends
`initial_vol` to the result. -/
noncomputable def GARCH11.get_volatility (w a b iv : ℝ) (x : List ℝ) :
    List ℝ :=
  iv :: GARCH11.scan w a b iv x.dropLast

/-- `EulerMaruyama.logp`: with `f, g = sde_fn(x[:-1])`, scores `x[1:]` under
`Normal(x[:-1] + dt*f, sqrt(dt)*g)`, summed (elementwise over the pairs of
consecutive values; `sde_pars` are closed over by the callable). -/
noncomputable def EulerMaruyama.logp (dt : ℝ) (sde_fn : ℝ → ℝ × ℝ)
    (x : List ℝ) : ℝ :=
  ((x.dropLast.zip x.tail).map (fun p =>
    Normal.logp_sigma (p.1 + dt * (sde_fn p.1).1)
      (Real.sqrt dt * (sde_fn p.1).2) p.2)).sum

/-- Claim C10: `GaussianRandomWalk.logp` on a length-one sequence reduces to
the initial-value score alone: the innovation sum is empty. -/
theorem GaussianRandomWalk.logp_singleton (initLogp : ℝ → ℝ)
    (mu sigma a : ℝ) :
    GaussianRandomWalk.logp initLogp mu sigma [a] = initLogp a := by
  simp [GaussianRandomWalk.logp]

/-- Claim C9: `GARCH11.get_volatility` never looks at the last observation:
two sequences of equal positive length agreeing except possibly in their
final element produce identical volatility sequences. -/
theorem GARCH11.get_volatility_last_irrelevant (w a b iv : ℝ)
    (x x' : List ℝ) (_h : 0 < x.length) (_hlen : x.length = x'.length)
    (hinit : x.dropLast = x'.dropLast) :
    GARCH11.get_volatility w a b iv x = GARCH11.get_volatility w a b iv x' := by
  simp [GARCH11.get_volatility, hinit]

theorem GARCH11.get_volatility_last_irrelevant_witness :
    (0 < ([1, 2] : List ℝ).length ∧ ([1, 2] : List ℝ).length = ([1, 7] : List ℝ).length ∧
      ([1, 2] : List ℝ).dropLast = ([1, 7] : List ℝ).dropLast) ∧
    GARCH11.get_volatility 1 1 1 2 [1, 2] = GARCH11.get_volatility 1 1 1 2 [1, 7] :=
  ⟨⟨by decide, by decide, rfl⟩,
    GARCH11.get_volatility_last_irrelevant 1 1 1 2 [1, 2] [1, 7]
      (by decide) (by decide) rfl⟩

/-- Claim C3: `EulerMaruyama.logp` with `dt = 1` and constant drift/diffusion
`(0, 1)` coincides with `GaussianRandomWalk.logp` at `mu = 0`, `sigma = 1`
and the default `Flat` init, on every sequence. -/
theorem EulerMaruyama.logp_reduces_to_grw (x : List ℝ) :
    EulerMaruyama.logp 1 (fun _ => (0, 1)) x
      = GaussianRandomWalk.logp Flat.logp 0 1 x := by
  simp [EulerMaruyama.logp, GaussianRandomWalk.logp, Flat.logp, Real.sqrt_one]

/-- Claim C4: for both `AR` and `GaussianRandomWalk`, construction fails
when `sigma` and `tau` are given together, and when neither is given. -/
theorem scale_duality_config_errors (rho : List ℝ) (constant : Bool)
    (s t mu : ℝ) (shape : List ℕ) :
    AR.make rho (some s) (some t) constant = none
    ∧ AR.make rho none none constant = none
    ∧ GaussianRandomWalk.make (some t) (some s) mu shape = none
    ∧ GaussianRandomWalk.make none none mu shape = none := by
  refine ⟨?_, ?_, ?_, ?_⟩ <;>
    simp [AR.make, GaussianRandomWalk.make, get_tau_sigma]

/-- Claim C7: constructing with `tau = 4` and constructing with `sigma = 1/2`
produce the very same canonical parameter bundle, for both `AR` and
`GaussianRandomWalk`, hence equal `logp` values on every input. -/
theorem scale_duality_roundtrip (rho : List ℝ) (constant : Bool)
    (shape : List ℕ) (mu : ℝ) (initA initG : ℝ → ℝ) (value x : List ℝ) :
    AR.make rho (some (1/2)) none constant = AR.make rho none (some 4) constant
    ∧ GaussianRandomWalk.make none (some (1/2)) mu shape
        = GaussianRandomWalk.make (some 4) none mu shape
    ∧ (AR.make rho none (some 4) constant).map (fun d => d.logp initA value)
        = (AR.make rho (some (1/2)) none constant).map
            (fun d => d.logp initA value)
    ∧ (GaussianRandomWalk.make (some 4) none mu shape).map
          (fun d => d.logp initG x)
        = (GaussianRandomWalk.make none (some (1/2)) mu shape).map
            (fun d => d.logp initG x) := by
  have hsqrt : Real.sqrt (4 : ℝ)⁻¹ = 1 / 2 := by
    rw [show ((4 : ℝ)⁻¹ = (1 / 2) ^ 2) by norm_num]
    exact Real.sqrt_sq (by norm_num)
  have hpair : get_tau_sigma (some 4) none = get_tau_sigma none (some (1/2 : ℝ)) := by
    simp [get_tau_sigma, hsqrt]
    norm_num
  refine ⟨?_, ?_, ?_, ?_⟩ <;> simp [AR.make, GaussianRandomWalk.make, hpair]

/-- Claim C8: `GaussianRandomWalk` construction (with a valid scale argument)
fails exactly when the shape sums to zero, and succeeds exactly when the
shape total is at least 1. -/
theorem GaussianRandomWalk.make_shape_check (t mu : ℝ) (shape : List ℕ) :
    (shape.sum = 0 → GaussianRandomWalk.make (some t) none mu shape = none)
    ∧ (GaussianRandomWalk.make (some t) none mu shape ≠ none
        ↔ 1 ≤ shape.sum) := by
  constructor
  · intro h
    simp [GaussianRandomWalk.make, h]
  · by_cases h : shape.sum = 0
    · simp [GaussianRandomWalk.make, h]
    · simp [GaussianRandomWalk.make, get_tau_sigma, h,
        Nat.one_le_iff_ne_zero]

theorem GaussianRandomWalk.make_shape_check_witness :
    ([0] : List ℕ).sum = 0
    ∧ GaussianRandomWalk.make (some 1) none 0 [0] = none :=
  ⟨by decide, (GaussianRandomWalk.make_shape_check 1 0 [0]).1 (by decide)⟩

/-- Claim C5: for `AR` with `constant = False`, `p = 1`, `rho = [0.5]`,
evaluated at `value = [1, 2, 3]`: the innovation residuals are
`[1.5, 2.0]`, and `logp` is the sum of `Normal(0, tau)` log-densities of
the residuals plus the `init` score of `[1]`. -/
theorem AR.logp_p1_example (tau : ℝ) (sigma : ℝ) (initLogp : ℝ → ℝ) :
    AR.eps [1/2] false [1, 2, 3] = [3/2, 2]
    ∧ ARdist.logp ⟨[1/2], sigma, tau, false⟩ initLogp [1, 2, 3]
        = (Normal.logp_tau 0 tau (3/2) + Normal.logp_tau 0 tau 2)
            + initLogp 1 := by
  constructor
  · simp [AR.eps, vsub]
    norm_num
  · simp [ARdist.logp, AR.eps, AR.lag, vsub]
    norm_num

/-- Zipping `x[:-1]` with `x[1:]` gives the same pairs as zipping `x` itself
with `x[1:]` (the zip truncates to the shorter list). -/
theorem zip_dropLast_tail (x : List ℝ) :
    x.dropLast.zip x.tail = x.zip x.tail := by
  induction x with
  | nil => rfl
  | cons a t ih =>
    cases t with
    | nil => rfl
    | cons b s =>
      simp only [List.dropLast_cons₂, List.tail_cons, List.zip_cons_cons] at ih ⊢
      rw [ih]

/-- The sum over consecutive pairs of a sequence, rewritten as a sum over
positions `i` of the pair `(x[i], x[i+1])`. -/
theorem sum_zip_tail_eq_range (f : ℝ × ℝ → ℝ) (x : List ℝ) :
    ((x.zip x.tail).map f).sum
      = ((List.range (x.length - 1)).map
          (fun i => f (x.getD i 0, x.getD (i + 1) 0))).sum := by
  induction x with
  | nil => rfl
  | cons a t ih =>
    cases t with
    | nil => rfl
    | cons b s =>
      have hlen : (a :: b :: s : List ℝ).length - 1 = s.length + 1 := by simp
      have hstep : ((fun i => f ((a :: b :: s).getD i 0,
            (a :: b :: s).getD (i + 1) 0)) ∘ Nat.succ)
          = fun i => f ((b :: s).getD i 0, (b :: s).getD (i + 1) 0) := by
        funext i
        simp [Function.comp]
      rw [hlen, List.range_succ_eq_map, List.map_cons, List.map_map, hstep]
      simp only [List.tail_cons, List.zip_cons_cons, List.map_cons,
        List.sum_cons, List.getD_cons_zero, List.getD_cons_succ]
      simp only [List.tail_cons, List.length_cons, Nat.add_sub_cancel] at ih
      rw [ih]
      simp only [List.getD_cons_succ]

/-- Claim C1: `AR1.logp` scores `x[0]` under `Normal(0, tau_e)` and each
`x[i]` (for `i ≥ 1`) under `Normal(k*x[i-1], tau_e)`, summed; with `k = 0`
it is the sum of independent `Normal(0, tau_e)` scores over all of `x`. -/
theorem AR1.logp_spec (k tau_e : ℝ) (x : List ℝ) (h : 0 < x.length) :
    AR1.logp k tau_e x
      = Normal.logp_tau 0 tau_e (x.getD 0 0)
        + ((List.range (x.length - 1)).map (fun i =>
            Normal.logp_tau (k * x.getD i 0) tau_e (x.getD (i + 1) 0))).sum
    ∧ AR1.logp 0 tau_e x
      = (x.map (fun v => Normal.logp_tau 0 tau_e v)).sum := by
  obtain ⟨a, t, rfl⟩ : ∃ a t, x = a :: t := by
    cases x with
    | nil => exact absurd h (by simp)
    | cons a t => exact ⟨a, t, rfl⟩
  constructor
  · unfold AR1.logp
    rw [zip_dropLast_tail,
      sum_zip_tail_eq_range (fun p => Normal.logp_tau (k * p.1) tau_e p.2)]
    simp [List.headI]
  · unfold AR1.logp
    rw [zip_dropLast_tail]
    have hsnd : ((a :: t).zip (a :: t).tail).map Prod.snd = (a :: t).tail :=
      List.map_snd_zip _ _ (by simp)
    have hmap : ((a :: t).zip (a :: t).tail).map
          (fun p => Normal.logp_tau (0 * p.1) tau_e p.2)
        = t.map (fun v => Normal.logp_tau 0 tau_e v) := by
      have : (fun p : ℝ × ℝ => Normal.logp_tau (0 * p.1) tau_e p.2)
          = (fun v => Normal.logp_tau 0 tau_e v) ∘ Prod.snd := by
        funext p
        simp
      rw [this, ← List.map_map, hsnd, List.tail_cons]
    rw [hmap]
    simp [List.headI]

theorem AR1.logp_spec_witness :
    0 < ([5, 7] : List ℝ).length
    ∧ (AR1.logp 3 2 [5, 7]
        = Normal.logp_tau 0 2 (([5, 7] : List ℝ).getD 0 0)
          + ((List.range (([5, 7] : List ℝ).length - 1)).map (fun i =>
              Normal.logp_tau (3 * ([5, 7] : List ℝ).getD i 0) 2
                (([5, 7] : List ℝ).getD (i + 1) 0))).sum
      ∧ AR1.logp 0 2 [5, 7]
          = (([5, 7] : List ℝ).map (fun v => Normal.logp_tau 0 2 v)).sum) :=
  ⟨by decide, AR1.logp_spec 3 2 [5, 7] (by decide)⟩

/-- Summing a function over an elementwise difference of two sequences equals
summing over the zipped pairs. -/
theorem sum_map_vsub (f : ℝ → ℝ) : ∀ (l l' : List ℝ),
    ((vsub l l').map f).sum = ((l'.zip l).map (fun p => f (p.2 - p.1))).sum
  | [], _ => by simp [vsub]
  | _ :: _, [] => by simp [vsub]
  | a :: l, b :: l' => by
      simp only [vsub, List.zipWith_cons_cons, List.zip_cons_cons,
        List.map_cons, List.sum_cons]
      rw [show ((List.zipWith (fun a b => a - b) l l').map f).sum
          = ((vsub l l').map f).sum from rfl, sum_map_vsub f l l']

/-- Shifting both sequences by the same constant leaves their elementwise
difference unchanged. -/
theorem vsub_map_add (c : ℝ) : ∀ (l l' : List ℝ),
    vsub (l.map (fun v => v + c)) (l'.map (fun v => v + c)) = vsub l l'
  | [], _ => by simp [vsub]
  | _ :: _, [] => by simp [vsub]
  | a :: l, b :: l' => by
      have ih := vsub_map_add c l l'
      simp only [vsub] at ih ⊢
      simp only [List.map_cons, List.zipWith_cons_cons]
      rw [ih]
      norm_num

/-- `GaussianRandomWalk.logp` at `mu = 0`, `sigma = 1` with a flat init is
exactly the sum of standard-Normal scores of the increments
`x[1:] - x[:-1]`. -/
theorem grw_logp_eq_increments (y : List ℝ) :
    GaussianRandomWalk.logp Flat.logp 0 1 y
      = ((vsub y.tail y.dropLast).map
          (fun e => Normal.logp_sigma 0 1 e)).sum := by
  unfold GaussianRandomWalk.logp
  rw [sum_map_vsub]
  simp only [Flat.logp, zero_add]
  have hfun : (fun p : ℝ × ℝ => Normal.logp_sigma (p.1 + 0) 1 p.2)
      = fun p : ℝ × ℝ => Normal.logp_sigma 0 1 (p.2 - p.1) := by
    funext p
    unfold Normal.logp_sigma Normal.logp_tau
    ring_nf
  rw [hfun]

/-- Claim C6: with `mu = 0`, `sigma = 1` and a flat (constant-zero
log-density) init, `GaussianRandomWalk.logp` is invariant under adding a
constant to every element, and depends on `x` only through the increments
`x[1:] - x[:-1]`, each scored under the standard Normal. -/
theorem GaussianRandomWalk.logp_translation_invariant (c : ℝ) (x : List ℝ)
    (_h : 0 < x.length) :
    GaussianRandomWalk.logp Flat.logp 0 1 (x.map (fun v => v + c))
      = GaussianRandomWalk.logp Flat.logp 0 1 x
    ∧ GaussianRandomWalk.logp Flat.logp 0 1 x
      = ((vsub x.tail x.dropLast).map
          (fun e => Normal.logp_sigma 0 1 e)).sum := by
  refine ⟨?_, grw_logp_eq_increments x⟩
  rw [grw_logp_eq_increments, grw_logp_eq_increments]
  rw [← List.map_tail, ← List.map_dropLast, vsub_map_add]

theorem GaussianRandomWalk.logp_translation_invariant_witness :
    0 < ([1, 2] : List ℝ).length
    ∧ (GaussianRandomWalk.logp Flat.logp 0 1
          (([1, 2] : List ℝ).map (fun v => v + 5))
        = GaussianRandomWalk.logp Flat.logp 0 1 [1, 2]
      ∧ GaussianRandomWalk.logp Flat.logp 0 1 [1, 2]
        = ((vsub ([1, 2] : List ℝ).tail ([1, 2] : List ℝ).dropLast).map
            (fun e => Normal.logp_sigma 0 1 e)).sum) :=
  ⟨by decide,
    GaussianRandomWalk.logp_translation_invariant 5 [1, 2] (by decide)⟩

/-- The scan emits one volatility value per observation it consumes. -/
theorem GARCH11.scan_length (w a b : ℝ) : ∀ (v0 : ℝ) (l : List ℝ),
    (GARCH11.scan w a b v0 l).length = l.length
  | _, [] => rfl
  | v0, xt :: rest => by
      simp [GARCH11.scan,
        GARCH11.scan_length w a b (volatility_update xt v0 w a b) rest]

/-- Each emitted value of the scan is the update applied to the observation
at that position and the previous value of the seeded output stream. -/
theorem GARCH11.scan_getD (w a b : ℝ) (l : List ℝ) : ∀ (v0 : ℝ) (t : ℕ),
    t < l.length →
    (GARCH11.scan w a b v0 l).getD t 0
      = volatility_update (l.getD t 0)
          ((v0 :: GARCH11.scan w a b v0 l).getD t 0) w a b := by
  induction l with
  | nil =>
    intro v0 t ht
    simp at ht
  | cons xt rest ih =>
    intro v0 t ht
    cases t with
    | zero => simp [GARCH11.scan]
    | succ n =>
      have hn : n < rest.length := by simpa using ht
      show (GARCH11.scan w a b (volatility_update xt v0 w a b) rest).getD n 0
          = volatility_update (rest.getD n 0)
              ((volatility_update xt v0 w a b ::
                GARCH11.scan w a b (volatility_update xt v0 w a b) rest).getD
                  n 0) w a b
      exact ih (volatility_update xt v0 w a b) n hn

/-- Elements of `l[:-1]` agree with those of `l`. -/
theorem dropLast_getD (l : List ℝ) (i : ℕ) (h : i + 1 < l.length) :
    l.dropLast.getD i 0 = l.getD i 0 := by
  have hi : i < l.dropLast.length := by
    rw [List.length_dropLast]
    omega
  rw [List.getD_eq_getElem l.dropLast 0 hi, List.getElem_dropLast,
    List.getD_eq_getElem l 0 (by omega)]

/-- With `omega = 1`, `alpha_1 = 0`, `beta_1 = 0` every update returns 1, so
the scan emits a constant stream of ones. -/
theorem GARCH11.scan_no_feedback : ∀ (v0 : ℝ) (l : List ℝ),
    GARCH11.scan 1 0 0 v0 l = List.replicate l.length 1
  | _, [] => rfl
  | v0, xt :: rest => by
      have h1 : volatility_update xt v0 1 0 0 = 1 := by
        simp [volatility_update]
      simp [GARCH11.scan, h1, GARCH11.scan_no_feedback 1 rest,
        List.replicate_succ]

/-- Every in-range element of a replicated list is the replicated value. -/
theorem getD_replicate_one : ∀ (n t : ℕ), t < n →
    (List.replicate n (1 : ℝ)).getD t 0 = 1
  | 0, _, h => absurd h (by omega)
  | n + 1, 0, _ => by
      rw [List.replicate_succ, List.getD_cons_zero]
  | n + 1, t + 1, h => by
      rw [List.replicate_succ, List.getD_cons_succ]
      exact getD_replicate_one n t (by omega)

/-- Claim C2: `GARCH11.get_volatility` is the sequence starting at
`initial_vol` whose value at each `t ≥ 1` is
`sqrt(omega + alpha_1*x[t-1]^2 + beta_1*vol[t-1]^2)`, computed by a strict
left-to-right fold; with `omega = 1`, `alpha_1 = 0`, `beta_1 = 0`,
`initial_vol = 1` it is constantly `initial_vol`. -/
theorem GARCH11.get_volatility_spec (w a b iv : ℝ) (x : List ℝ) :
    (GARCH11.get_volatility w a b iv x).getD 0 0 = iv
    ∧ (0 < x.length → (GARCH11.get_volatility w a b iv x).length = x.length)
    ∧ (∀ t, 1 ≤ t → t < x.length →
        (GARCH11.get_volatility w a b iv x).getD t 0
          = Real.sqrt (w + a * (x.getD (t - 1) 0) ^ 2
              + b * ((GARCH11.get_volatility w a b iv x).getD (t - 1) 0) ^ 2))
    ∧ (∀ t, t < (GARCH11.get_volatility 1 0 0 1 x).length →
        (GARCH11.get_volatility 1 0 0 1 x).getD t 0 = 1) := by
  refine ⟨by simp [GARCH11.get_volatility], ?_, ?_, ?_⟩
  · intro hx
    simp [GARCH11.get_volatility, GARCH11.scan_length, List.length_dropLast]
    omega
  · intro t h1 ht
    obtain ⟨n, rfl⟩ : ∃ n, t = n + 1 := ⟨t - 1, by omega⟩
    have hn : n < x.dropLast.length := by
      rw [List.length_dropLast]
      omega
    show (GARCH11.scan w a b iv x.dropLast).getD n 0 = _
    rw [GARCH11.scan_getD w a b x.dropLast iv n hn]
    rw [show (n + 1 - 1) = n from rfl]
    rw [volatility_update, dropLast_getD x n (by omega)]
    rfl
  · intro t ht
    have hrep : GARCH11.get_volatility 1 0 0 1 x
        = List.replicate (x.dropLast.length + 1) (1 : ℝ) := by
      unfold GARCH11.get_volatility
      rw [GARCH11.scan_no_feedback, List.replicate_succ]
    rw [hrep] at ht ⊢
    rw [List.length_replicate] at ht
    exact getD_replicate_one _ t ht

theorem GARCH11.get_volatility_spec_witness :
    ((1 : ℕ) ≤ 1 ∧ 1 < ([2, 3, 5] : List ℝ).length)
    ∧ (GARCH11.get_volatility 1 1 1 2 [2, 3, 5]).getD 1 0
        = Real.sqrt (1 + 1 * (([2, 3, 5] : List ℝ).getD (1 - 1) 0) ^ 2
            + 1 * ((GARCH11.get_volatility 1 1 1 2 [2, 3, 5]).getD
                (1 - 1) 0) ^ 2) :=
  ⟨⟨le_refl 1, by decide⟩,
    (GARCH11.get_volatility_spec 1 1 1 2 [2, 3, 5]).2.2.1 1 (le_refl 1)
      (by decide)⟩
